import Mathlib

set_option maxHeartbeats 1600000

/-!
# Verification of the archive-backed shell emulator (`Main.py`)

A shallow embedding of the two components of the program:

* `VirtualFileSystem` — the archive-backed virtual filesystem: path
  resolution, directory listing (`list_files`), navigation
  (`change_directory`) and content access (`read_file`);
* `ShellEmulator` — command dispatch (`execute_command`), the script
  runner (`execute_script` / its line loop) and the per-verb handlers.

Python strings are modelled by `String` (operating on the underlying
`List Char`, which matches Python's per-character slicing semantics),
byte strings by `List Nat`, and everything printed by the program by a
`List Out` of output events, one constructor per distinct `print`
statement of the source.  All definitions are executable.
-/

namespace Emulator

/-! ## Python string primitives -/

/-- `s.rstrip(c)` on the character list: remove every trailing `c`. -/
def rstripCh (c : Char) (l : List Char) : List Char :=
  (l.reverse.dropWhile (· == c)).reverse

/-- `s.lstrip(c)` on the character list: remove every leading `c`. -/
def lstripCh (c : Char) (l : List Char) : List Char :=
  l.dropWhile (· == c)

/-- `s.rstrip(c)` for Lean strings. -/
def pyRstrip (c : Char) (s : String) : String :=
  ⟨rstripCh c s.data⟩

/-- `s.lstrip(c)` for Lean strings. -/
def pyLstrip (c : Char) (s : String) : String :=
  ⟨lstripCh c s.data⟩

/-- `s.startswith(p)`: `p` is a prefix of `s`. -/
def pyStartswith (s p : String) : Bool :=
  p.data.isPrefixOf s.data

/-- `s.endswith(p)` restricted to a single character suffix. -/
def endsWithCh (c : Char) (s : String) : Bool :=
  match s.data.getLast? with
  | some d => d == c
  | none => false

/-- The character set of Python `str.strip()` / `str.split()`
(ASCII whitespace as used by the source's command lines). -/
def isPySpace (c : Char) : Bool :=
  c == ' ' || c == '\t' || c == '\n' || c == '\r' || c == '\x0b' || c == '\x0c'

/-- Left half of `str.strip()`. -/
def stripL (l : List Char) : List Char := l.dropWhile isPySpace

/-- Right half of `str.strip()`. -/
def stripR (l : List Char) : List Char := (l.reverse.dropWhile isPySpace).reverse

/-- Python `s.strip()` (whitespace from both ends). -/
def pyStrip (s : String) : String := ⟨stripR (stripL s.data)⟩

/-- One step of `str.split()`: fold a character into the word list built
so far (words to the right, plus the word currently being read). -/
def pySplitStep (c : Char) (acc : List (List Char) × Option (List Char)) :
    List (List Char) × Option (List Char) :=
  if isPySpace c then
    match acc.2 with
    | some w => (w :: acc.1, none)
    | none => acc
  else (acc.1, some (c :: acc.2.getD []))

/-- Python `s.split()` with no argument: split on whitespace runs,
producing no empty tokens. -/
def pySplit (s : String) : List String :=
  let r := s.data.foldr pySplitStep ([], none)
  (match r.2 with
   | some w => w :: r.1
   | none => r.1).map String.mk

/-- Python `s.lower()` (the source only lowercases ASCII verbs). -/
def pyLower (s : String) : String := ⟨s.data.map Char.toLower⟩

/-- Python `s.replace('\\', '/')` (the source normalizes the host path
separator away; under the modelled POSIX join it touches only
backslashes already present in the input). -/
def replaceBackslash (s : String) : String :=
  ⟨s.data.map (fun c => if c == '\\' then '/' else c)⟩

/-- Python `s.replace('//', '/')` on the character list: non-overlapping
left-to-right replacement. -/
def replaceDoubleSlashCh : List Char → List Char
  | '/' :: '/' :: rest => '/' :: replaceDoubleSlashCh rest
  | c :: rest => c :: replaceDoubleSlashCh rest
  | [] => []

/-- Python `s.replace('//', '/')`. -/
def replaceDoubleSlash (s : String) : String :=
  ⟨replaceDoubleSlashCh s.data⟩

/-- `os.path.join(a, b)` for two arguments, POSIX rules: an absolute
second component wins; otherwise the parts are glued with exactly one
`/` unless `a` is empty or already ends in `/`. -/
def pyJoin (a b : String) : String :=
  if pyStartswith b "/" then b
  else if a = "" || endsWithCh '/' a then a ++ b
  else a ++ "/" ++ b

/-- `p[:i+1]` where `i` is the index of the last `/` of `p` (empty when
`p` has no slash): the head part of `os.path.dirname`. -/
def keepThroughLastSlash (l : List Char) : List Char :=
  (l.reverse.dropWhile (· != '/')).reverse

/-- `os.path.dirname(p)` (POSIX): everything up to the last `/`; the
head is kept verbatim when it is empty or all slashes, and has its
trailing slashes stripped otherwise. -/
def pyDirname (p : String) : String :=
  let head := keepThroughLastSlash p.data
  if head.all (· == '/') then ⟨head⟩ else ⟨rstripCh '/' head⟩

/-- Python `s.split(c)` for a single separator character, on the
character list; `[]` splits to `[[]]`, as in Python. -/
def splitChWith (sep : Char) : List Char → List (List Char)
  | [] => [[]]
  | c :: rest =>
    let s := splitChWith sep rest
    if c == sep then [] :: s
    else (c :: s.headD []) :: s.tail

/-- Python `content.split('\n')`, the line splitting used by `cat` and
`tail`. -/
def pySplitNl (s : String) : List String :=
  (splitChWith '\n' s.data).map String.mk

/-- Code-point lexicographic comparison of character lists — Python's
`str` ordering (`a <= b`). -/
def lexLeB : List Char → List Char → Bool
  | [], _ => true
  | _ :: _, [] => false
  | a :: as, b :: bs =>
    if a.toNat < b.toNat then true
    else if b.toNat < a.toNat then false
    else lexLeB as bs

/-- Python's `<=` on strings, as a decidable relation. -/
def pyLe (a b : String) : Prop := lexLeB a.data b.data = true

instance : DecidableRel pyLe := fun a b => by
  unfold pyLe
  infer_instance

/-- Python `sorted` on strings: a stable `pyLe`-sorted permutation
(Python's sort is stable; on strings, equal keys are identical, so the
result is the unique sorted permutation). -/
def pySorted (l : List String) : List String :=
  l.insertionSort pyLe

/-! ## UTF-8 decoding

`bytes.decode('utf-8')` with strict error handling, as called by
`VirtualFileSystem.read_file`.  Bytes are modelled as `List Nat`. -/

/-- A UTF-8 continuation byte: `0x80 ≤ b ≤ 0xBF`. -/
def isCont (b : Nat) : Bool := 0x80 ≤ b && b ≤ 0xBF

/-- Strict UTF-8 decoding of a byte list into characters.  Overlong
encodings, surrogates and out-of-range sequences are rejected, exactly
as Python's strict `decode('utf-8')` rejects them. -/
def utf8DecodeCh : List Nat → Option (List Char)
  | [] => some []
  | b :: rest =>
    if b ≤ 0x7F then
      (utf8DecodeCh rest).map (fun cs => Char.ofNat b :: cs)
    else if b ≤ 0xC1 then
      none
    else if b ≤ 0xDF then
      match rest with
      | c1 :: rest2 =>
        if isCont c1 then
          (utf8DecodeCh rest2).map
            (fun cs => Char.ofNat ((b - 0xC0) * 64 + (c1 - 0x80)) :: cs)
        else none
      | [] => none
    else if b ≤ 0xEF then
      match rest with
      | c1 :: c2 :: rest3 =>
        let lo1 := if b == 0xE0 then 0xA0 else 0x80
        let hi1 := if b == 0xED then 0x9F else 0xBF
        if lo1 ≤ c1 && c1 ≤ hi1 && isCont c2 then
          (utf8DecodeCh rest3).map
            (fun cs =>
              Char.ofNat ((b - 0xE0) * 4096 + (c1 - 0x80) * 64 + (c2 - 0x80)) :: cs)
        else none
      | _ => none
    else if b ≤ 0xF4 then
      match rest with
      | c1 :: c2 :: c3 :: rest4 =>
        let lo1 := if b == 0xF0 then 0x90 else 0x80
        let hi1 := if b == 0xF4 then 0x8F else 0xBF
        if lo1 ≤ c1 && c1 ≤ hi1 && isCont c2 && isCont c3 then
          (utf8DecodeCh rest4).map
            (fun cs =>
              Char.ofNat ((b - 0xF0) * 262144 + (c1 - 0x80) * 4096 +
                (c2 - 0x80) * 64 + (c3 - 0x80)) :: cs)
        else none
      | _ => none
    else none

/-- `bytes.decode('utf-8')` as an `Option`: `none` models the
`UnicodeDecodeError` branch of `read_file`. -/
def utf8Decode (bs : List Nat) : Option String :=
  (utf8DecodeCh bs).map String.mk

/-! ## The archive-backed virtual filesystem -/

/-- One archive entry: a full path (as stored, never beginning with
`/`) and its byte content.  Mirrors a member of the ZIP namelist
together with its data. -/
structure Entry where
  path : String
  bytes : List Nat
deriving DecidableEq, Repr

/-- The state of `VirtualFileSystem`: the loaded archive (`none` models
`self.archive is None`) and the single mutable field `current_dir`. -/
structure VFSState where
  archive : Option (List Entry)
  currentDir : String
deriving DecidableEq, Repr

/-! ### `list_files` -/

/-- The per-entry test of the `list_files` loop: when `name` starts
with the target prefix and differs from it, the remainder
`name[len(target):]`. -/
def lsRel (target name : String) : Option String :=
  if pyStartswith name target && name != target then
    some ⟨name.data.drop target.data.length⟩
  else none

/-- The remainder classified as a direct file name (no further `/`). -/
def lsFileOf (target name : String) : Option String :=
  (lsRel target name).bind fun rel =>
    if rel.data.contains '/' then none else some rel

/-- The remainder classified as an inferred subdirectory: its first
path segment (`relative_path.split('/')[0]`). -/
def lsDirOf (target name : String) : Option String :=
  (lsRel target name).bind fun rel =>
    if rel.data.contains '/' then some ⟨rel.data.takeWhile (· != '/')⟩
    else none

/-- The scanning loop of `list_files`: walk the namelist, appending
direct file names to `file_list` and first segments to the
(insertion-ordered, duplicate-free) `dir_set`. -/
def lsCollect (target : String) : List Entry → List String × List String →
    List String × List String
  | [], acc => acc
  | e :: rest, (ds, fs) =>
    match lsRel target e.path with
    | none => lsCollect target rest (ds, fs)
    | some rel =>
      if rel.data.contains '/' then
        let d : String := ⟨rel.data.takeWhile (· != '/')⟩
        lsCollect target rest ((if ds.contains d then ds else ds ++ [d]), fs)
      else
        lsCollect target rest (ds, fs ++ [rel])

/-- The target prefix scanned by `list_files`: the argument if it is
truthy, else the current directory, with trailing slashes stripped and
a single `/` appended (including the source's dead `'//'` special
case). -/
def lsTarget (cur : String) (directory : Option String) : String :=
  let t0 := match directory with
    | some d => if d = "" then cur else d
    | none => cur
  let t1 := pyRstrip '/' t0 ++ "/"
  if t1 = "//" then "/" else t1

/-- `VirtualFileSystem.list_files(directory=None)` proper.  Returns
`none` for an unloaded filesystem (Python returns `None`); otherwise
the sorted concatenation of the collected directory names and file
names under the target prefix. -/
def list_files (st : VFSState) (directory : Option String) : Option (List String) :=
  match st.archive with
  | none => none
  | some entries =>
    some (pySorted ((lsCollect (lsTarget st.currentDir directory) entries ([], [])).1 ++
      (lsCollect (lsTarget st.currentDir directory) entries ([], [])).2))

/-- Insertion-ordered deduplication, the list analogue of feeding the
names one by one into Python's `set`. -/
def dedupKeepFirst (l : List String) : List String :=
  l.foldl (fun acc x => if acc.contains x then acc else acc ++ [x]) []

/-- A case-insensitive strict comparison: `a` sorts strictly before
`b` when `a.lower()` precedes `b.lower()` (ties keep input order under
a stable sort). -/
def ciLt (a b : String) : Prop :=
  lexLeB (b.data.map Char.toLower) (a.data.map Char.toLower) = false

instance : DecidableRel ciLt := fun a b => by
  unfold ciLt
  infer_instance

/-- A case-insensitive-stable sort, as the claim's wording prescribes. -/
def ciSorted (l : List String) : List String :=
  l.insertionSort ciLt

/-- The listing as claim C1 words it (not as the code computes it):
the deduplicated first-path-segment names — direct files and inferred
subdirectories — of the entries under the target directory, with the
stored (unrooted) paths treated as rooted, sorted
case-insensitive-stably. -/
def claimedListing (entries : List Entry) (D : String) : List String :=
  let P := if D = "/" then "" else pyLstrip '/' D ++ "/"
  ciSorted (dedupKeepFirst (entries.filterMap (fun e =>
    if pyStartswith e.path P && e.path != P then
      some ⟨(e.path.data.drop P.data.length).takeWhile (· != '/')⟩
    else none)))

/-! ### `change_directory` -/

/-- Everything the program prints, one constructor per distinct
`print` statement of the source (the exact wording and colouring of a
message is presentation; the event carries the interpolated data). -/
inductive Out where
  /-- "VFS не загружена" (filesystem not loaded). -/
  | vfsNotLoaded
  /-- "Директория d не найдена" — `change_directory` failure. -/
  | dirNotFound (d : String)
  /-- "Файл f содержит бинарные данные…" — `read_file` decode failure. -/
  | binaryFile (f : String)
  /-- "Файл f не найден или недоступен для чтения" — `cat`/`tail` on a
  `None` read result. -/
  | fileNotFoundOrUnreadable (f : String)
  /-- "Директория пуста" — `ls` on an empty listing. -/
  | emptyDir
  /-- One `ls` output line: the entry name and whether it was decorated
  as a directory (colours by extension are elided as presentation). -/
  | lsItem (name : String) (isDir : Bool)
  /-- Usage message of `tail` with no arguments. -/
  | tailUsage
  /-- "Количество строк должно быть положительным числом". -/
  | tailNonPositive
  /-- "Количество строк должно быть числом". -/
  | tailNotNumber
  /-- "=== Последние n строк файла f ===". -/
  | tailHeader (n : Nat) (f : String)
  /-- Usage message of `cat` with no arguments. -/
  | catUsage
  /-- "=== Содержимое файла f ===". -/
  | catHeader (f : String)
  /-- One numbered content line `"{i:4d}: {line}"` of `cat`/`tail`. -/
  | numberedLine (n : Nat) (line : String)
  /-- "История команд пуста". -/
  | historyEmpty
  /-- "=== История команд (последние 20) ===". -/
  | historyHeader
  /-- One numbered history line `"{i:3d}: {cmd}"`. -/
  | historyLine (n : Nat) (cmd : String)
  /-- `whoami` output: the captured username. -/
  | whoamiOut (u : String)
  /-- `pwd` output: the current directory, verbatim. -/
  | pwdOut (d : String)
  /-- The `vfs-info` report (its content is derived from `os.stat` of
  the archive file, outside the model). -/
  | vfsInfoShown
  /-- The static `help` table. -/
  | helpShown
  /-- The `clear`/`clr` screen wipe (an `os.system` delegate). -/
  | screenCleared
  /-- "Выход из эмулятора…" printed by `exit`/`quit`. -/
  | exitMsg
  /-- "Команда c не найдена…" for an unrecognized verb. -/
  | unknownCommand (c : String)
  /-- "[n] # пустая строка" — a blank script line echoed. -/
  | scriptBlank (n : Nat)
  /-- "[n] # text" — a comment script line echoed. -/
  | scriptComment (n : Nat) (text : String)
  /-- "[n] line" — a command script line echoed. -/
  | scriptEcho (n : Nat) (line : String)
  /-- The empty separator line printed after each dispatched script
  command. -/
  | blankLine
  /-- The script-runner banner ("Выполнение скрипта…" and the rule). -/
  | scriptStart
  /-- The script-runner footer (the rule and "Скрипт выполнен успешно"). -/
  | scriptEnd
deriving DecidableEq, Repr

/-- The resolved candidate prefix tested by `change_directory` for a
target that is neither `/` nor `..`: absolute targets keep their
leading slash; relative ones are joined to the current directory. -/
def cdTestDir (cur newDir : String) : String :=
  if pyStartswith newDir "/" then pyRstrip '/' newDir ++ "/"
  else replaceBackslash (pyJoin (pyRstrip '/' cur) newDir) ++ "/"

/-- `VirtualFileSystem.change_directory(new_dir)`: returns the Python
boolean result, the new state, and the printed output.  `/` and `..`
always succeed (`..` is a no-op at root, `os.path.dirname` otherwise);
any other target succeeds iff some entry starts with the resolved
prefix or equals the resolved prefix without its trailing slash. -/
def change_directory (st : VFSState) (newDir : String) :
    Bool × VFSState × List Out :=
  match st.archive with
  | none => (false, st, [Out.vfsNotLoaded])
  | some entries =>
    if newDir = "/" then (true, { st with currentDir := "/" }, [])
    else if newDir = ".." then
      (true,
       { st with currentDir :=
          if st.currentDir ≠ "/" then
            if pyDirname (pyRstrip '/' st.currentDir) = "" then "/"
            else pyDirname (pyRstrip '/' st.currentDir)
          else st.currentDir },
       [])
    else
      if entries.any (fun e =>
          pyStartswith e.path (cdTestDir st.currentDir newDir) ||
          e.path == pyRstrip '/' (cdTestDir st.currentDir newDir)) then
        (true,
         { st with currentDir :=
            if pyRstrip '/' (cdTestDir st.currentDir newDir) = "" then "/"
            else pyRstrip '/' (cdTestDir st.currentDir newDir) },
         [])
      else
        (false, st, [Out.dirNotFound newDir])

/-! ### `read_file` -/

/-- The full path looked up by `read_file` / `file_exists`: an
absolute name has its leading slashes stripped, a relative one is
joined to the current directory (itself stripped of its leading
slash); duplicate slashes are then collapsed once. -/
def resolveReadPath (cur filename : String) : String :=
  let fp := if pyStartswith filename "/" then pyLstrip '/' filename
    else replaceBackslash (pyJoin (pyLstrip '/' cur) filename)
  replaceDoubleSlash fp

/-- Name lookup in the archive.  `zipfile` resolves a duplicated name
to its last occurrence (`NameToInfo` is overwritten in namelist
order), hence the search over the reversed entry list. -/
def lookupEntry (entries : List Entry) (p : String) : Option Entry :=
  entries.reverse.find? (fun e => e.path == p)

/-- `VirtualFileSystem.read_file(filename)`: the decoded text (or
`none`, Python's `None`) together with the printed output.  A missing
file returns `none` silently; a found file whose bytes do not decode
prints the binary-data message and returns `none`. -/
def read_file (st : VFSState) (filename : String) : Option String × List Out :=
  match st.archive with
  | none => (none, [])
  | some entries =>
    let fullPath := resolveReadPath st.currentDir filename
    if entries.any (fun e => e.path == fullPath) then
      match lookupEntry entries fullPath with
      | some e =>
        match utf8Decode e.bytes with
        | some text => (some text, [])
        | none => (none, [Out.binaryFile filename])
      | none => (none, [])
    else (none, [])

/-! ## The command engine -/

/-- The state of `ShellEmulator`: the filesystem, the append-only
command history, and the username captured once at session start
(`getpass.getuser()`, delegated to the OS). -/
structure ShellState where
  vfs : VFSState
  history : List String
  username : String
deriving DecidableEq, Repr

/-- Decimal digit accumulation for `int(s)`; `none` on a non-digit or
on the empty string. -/
def digitsToNat (ds : List Char) : Option Nat :=
  if ds = [] then none
  else ds.foldl
    (fun acc c => acc.bind fun a =>
      if c.isDigit then some (a * 10 + (c.toNat - 48)) else none)
    (some 0)

/-- Python `int(s)` on ordinary decimal literals: surrounding
whitespace is stripped, one optional sign, then decimal digits.
(Underscored literals such as `1_0` are not modelled; no claim
depends on them.) -/
def pyInt (s : String) : Option Int :=
  match (pyStrip s).data with
  | '-' :: ds => (digitsToNat ds).map (fun n => -(n : Int))
  | '+' :: ds => (digitsToNat ds).map (fun n => (n : Int))
  | ds => (digitsToNat ds).map (fun n => (n : Int))

/-- The directory test of the `ls` decoration loop: the item joined to
the current directory is a directory iff the archive has a marker
entry `full_path + '/'` or any entry under that prefix. -/
def lsIsDir (st : VFSState) (item : String) : Bool :=
  let fullPath := replaceBackslash (pyJoin (pyRstrip '/' st.currentDir) item)
  (st.archive.getD []).any (fun e =>
    e.path == fullPath ++ "/" || pyStartswith e.path (fullPath ++ "/"))

/-- `ShellEmulator.cmd_ls(args)`: list the directory `args[0]` (or the
current one), reporting "not loaded" and "empty" distinctly, then one
decorated line per item. -/
def cmd_ls (st : ShellState) (args : List String) : List Out :=
  match list_files st.vfs args.head? with
  | none => [Out.vfsNotLoaded]
  | some files =>
    if files = [] then [Out.emptyDir]
    else files.map (fun item => Out.lsItem item (lsIsDir st.vfs item))

/-- `ShellEmulator.cmd_cd(args)`: no argument means `/`; the Python
boolean result of `change_directory` is ignored (the error message is
printed inside it). -/
def cmd_cd (st : ShellState) (args : List String) : ShellState × List Out :=
  let r := change_directory st.vfs (args.headD "/")
  ({ st with vfs := r.2.1 }, r.2.2)

/-- The shared tail of `cmd_tail` after argument parsing: read the
file, then print the last `max(0, L - n)`-offset lines with their
original numbering `enumerate(all_lines[start:], start + 1)`. -/
def tailRun (st : ShellState) (filename : String) (n : Nat) : List Out :=
  match read_file st.vfs filename with
  | (none, outs) => outs ++ [Out.fileNotFoundOrUnreadable filename]
  | (some content, outs) =>
    let allLines := pySplitNl content
    let start := allLines.length - n
    outs ++ Out.tailHeader n filename ::
      (List.enumFrom (start + 1) (allLines.drop start)).map
        (fun p => Out.numberedLine p.1 p.2)

/-- `ShellEmulator.cmd_tail(args)`: usage on no argument; `args[1]`
(when present) must parse as a positive int, default 10; surplus
arguments are ignored. -/
def cmd_tail (st : ShellState) (args : List String) : List Out :=
  match args with
  | [] => [Out.tailUsage]
  | filename :: rest =>
    match rest with
    | [] => tailRun st filename 10
    | a :: _ =>
      match pyInt a with
      | none => [Out.tailNotNumber]
      | some n => if n ≤ 0 then [Out.tailNonPositive] else tailRun st filename n.toNat


/-- `ShellEmulator.cmd_cat(args)`: usage on no argument; otherwise the
whole content, one numbered line per newline-split line, numbered from
1; surplus arguments are ignored. -/
def cmd_cat (st : ShellState) (args : List String) : List Out :=
  match args with
  | [] => [Out.catUsage]
  | filename :: _ =>
    match read_file st.vfs filename with
    | (none, outs) => outs ++ [Out.fileNotFoundOrUnreadable filename]
    | (some content, outs) =>
      outs ++ Out.catHeader filename ::
        (List.enumFrom 1 (pySplitNl content)).map
          (fun p => Out.numberedLine p.1 p.2)

/-- `ShellEmulator.cmd_history()`: the last 20 recorded commands with
their absolute sequence numbers (`enumerate(history[start:], start+1)`). -/
def cmd_history (st : ShellState) : List Out :=
  if st.history = [] then [Out.historyEmpty]
  else
    let start := st.history.length - 20
    Out.historyHeader ::
      (List.enumFrom (start + 1) (st.history.drop start)).map
        (fun p => Out.historyLine p.1 p.2)

/-- The `if/elif` verb chain of `ShellEmulator.execute_command`, over
the lowercased verb and the remaining tokens.  The third component is
`true` exactly on the `exit`/`quit` branch, modelling the `SystemExit`
raised by `sys.exit(0)` there — which the surrounding
`except Exception` does not catch, so it unwinds past the dispatcher. -/
def dispatch (st1 : ShellState) (cmd : String) (rest : List String) :
    ShellState × List Out × Bool :=
  if cmd = "ls" then (st1, cmd_ls st1 rest, false)
  else if cmd = "cd" then
    let r := cmd_cd st1 rest
    (r.1, r.2, false)
  else if cmd = "whoami" then (st1, [Out.whoamiOut st1.username], false)
  else if cmd = "tail" then (st1, cmd_tail st1 rest, false)
  else if cmd = "vfs-info" then (st1, [Out.vfsInfoShown], false)
  else if cmd = "history" then (st1, cmd_history st1, false)
  else if cmd = "cat" then (st1, cmd_cat st1 rest, false)
  else if cmd = "pwd" then (st1, [Out.pwdOut st1.vfs.currentDir], false)
  else if cmd = "help" then (st1, [Out.helpShown], false)
  else if cmd = "exit" ∨ cmd = "quit" then (st1, [Out.exitMsg], true)
  else if cmd = "clear" ∨ cmd = "clr" then (st1, [Out.screenCleared], false)
  else (st1, [Out.unknownCommand cmd], false)

/-- `ShellEmulator.execute_command(command)`: strip; ignore empty
lines; append to history; split into verb (lowercased) and arguments;
run the verb chain. -/
def execute_command (st : ShellState) (command0 : String) :
    ShellState × List Out × Bool :=
  if pyStrip command0 = "" then (st, [], false)
  else
    dispatch { st with history := st.history ++ [pyStrip command0] }
      (pyLower ((pySplit (pyStrip command0)).headD ""))
      (pySplit (pyStrip command0)).tail

/-- The line loop of `ShellEmulator.execute_script`, over the raw
lines with their 1-based numbers: blanks and comments are echoed and
skipped; other lines are echoed and dispatched, with a separating
blank line after each.  A `true` third component (the propagating
`SystemExit` of `exit`/`quit`) stops the loop at once: the separator,
all later lines and the footer are never reached. -/
def runScriptLines (st : ShellState) (lineNum : Nat) :
    List String → ShellState × List Out × Bool
  | [] => (st, [], false)
  | line0 :: rest =>
    let line := pyStrip line0
    if line = "" then
      let r := runScriptLines st (lineNum + 1) rest
      (r.1, Out.scriptBlank lineNum :: r.2.1, r.2.2)
    else if pyStartswith line "#" then
      let r := runScriptLines st (lineNum + 1) rest
      (r.1, Out.scriptComment lineNum (pyStrip ⟨line.data.drop 1⟩) :: r.2.1, r.2.2)
    else
      let r1 := execute_command st line
      if r1.2.2 then
        (r1.1, Out.scriptEcho lineNum line :: r1.2.1, true)
      else
        let r2 := runScriptLines r1.1 (lineNum + 1) rest
        (r2.1, Out.scriptEcho lineNum line :: r1.2.1 ++ Out.blankLine :: r2.2.1, r2.2.2)

/-- `ShellEmulator.execute_script` on an already-read list of lines
(locating and reading the script file is an OS delegate outside the
model): banner, the line loop, and — only when no termination signal
unwound out of the loop — the footer. -/
def execute_script (st : ShellState) (lines : List String) :
    ShellState × List Out × Bool :=
  let r := runScriptLines st 1 lines
  (r.1, Out.scriptStart :: r.2.1 ++ (if r.2.2 then [] else [Out.scriptEnd]), r.2.2)

/-! ## Derived definitions used by the claims -/

/-- The verb a command line dispatches on: first whitespace token of
the stripped line, lowercased. -/
def verbOf (c : String) : String := pyLower ((pySplit (pyStrip c)).headD "")

/-- The states reached by a sequence of `change_directory` calls from
the freshly loaded state (current directory `/`). -/
def cdReach (entries : List Entry) (seq : List String) : VFSState :=
  seq.foldl (fun st d => (change_directory st d).2.1) ⟨some entries, "/"⟩

/-- The current-directory invariant that actually holds for the code:
root, or a nonempty path with no leading and no trailing slash that is
witnessed by an entry extending it (`P + "/"` a prefix) or equal to it
(a plain file entry — the code lets `cd` enter those too). -/
def cdInv (entries : List Entry) (cur : String) : Prop :=
  cur = "/" ∨
    (cur ≠ "" ∧ pyStartswith cur "/" = false ∧ endsWithCh '/' cur = false ∧
     ∃ e ∈ entries, pyStartswith e.path (cur ++ "/") = true ∨ e.path = cur)

instance (entries : List Entry) (cur : String) : Decidable (cdInv entries cur) := by
  unfold cdInv
  infer_instance

/-- Well-formed path: no empty and no `.` segments (`'/'`-separated). -/
def wfSegs (s : String) : Prop :=
  ∀ seg ∈ splitChWith '/' s.data, seg ≠ [] ∧ seg ≠ ['.']

instance (s : String) : Decidable (wfSegs s) := by
  unfold wfSegs
  infer_instance

/-! ## General lemmas on the string primitives -/

theorem data_mk (l : List Char) : (String.mk l).data = l := rfl

theorem data_append (a b : String) : (a ++ b).data = a.data ++ b.data := rfl

theorem pyStartswith_iff {s p : String} : pyStartswith s p = true ↔ p.data <+: s.data :=
  List.isPrefixOf_iff_prefix

/-- `endswith` via `getLast?`. -/
theorem endsWithCh_eq_false {c : Char} {s : String} :
    endsWithCh c s = false ↔ s.data.getLast? ≠ some c := by
  unfold endsWithCh
  cases h : s.data.getLast? with
  | none => simp
  | some d => simp [beq_eq_false_iff_ne]

/-- Decomposition of `rstrip`: the original is the stripped part plus a
run of the stripped character. -/
theorem rstripCh_decomp (c : Char) (l : List Char) :
    ∃ k, l = rstripCh c l ++ List.replicate k c := by
  refine ⟨(l.reverse.takeWhile (· == c)).length, ?_⟩
  have htd := List.takeWhile_append_dropWhile (· == c) l.reverse
  have hrep : l.reverse.takeWhile (· == c) =
      List.replicate (l.reverse.takeWhile (· == c)).length c := by
    apply List.eq_replicate_of_mem
    intro b hb
    simpa using List.mem_takeWhile_imp hb
  calc l = l.reverse.reverse := (List.reverse_reverse l).symm
    _ = (l.reverse.takeWhile (· == c) ++ l.reverse.dropWhile (· == c)).reverse := by rw [htd]
    _ = rstripCh c l ++ (l.reverse.takeWhile (· == c)).reverse := by
          rw [List.reverse_append]; rfl
    _ = rstripCh c l ++ List.replicate (l.reverse.takeWhile (· == c)).length c := by
          rw [hrep, List.reverse_replicate, List.length_replicate]

/-- `rstrip` leaves no trailing occurrence of the stripped character. -/
theorem rstripCh_getLast (c : Char) (l : List Char) :
    (rstripCh c l).getLast? ≠ some c := by
  unfold rstripCh
  rw [List.getLast?_reverse]
  cases h : (l.reverse.dropWhile (· == c)).head? with
  | none => simp
  | some d =>
    have := List.head?_dropWhile_not (· == c) l.reverse
    rw [h] at this
    simp only [beq_eq_false_iff_ne] at this
    simp [this]

/-- A list with no trailing `c` is unchanged by `rstrip c`. -/
theorem rstripCh_of_getLast_ne {c : Char} {l : List Char}
    (h : l.getLast? ≠ some c) : rstripCh c l = l := by
  unfold rstripCh
  cases hl : l.reverse with
  | nil => simpa using congrArg List.reverse hl
  | cons d t =>
    have hd : d ≠ c := by
      intro hdc
      apply h
      have : l.reverse.head? = some d := by rw [hl]; rfl
      rw [List.head?_reverse] at this
      rw [this, hdc]
    rw [List.dropWhile_cons, if_neg (by simp [hd]), ← hl, List.reverse_reverse]

/-- `dropWhile` is idempotent. -/
theorem dropWhile_dropWhile (p : Char → Bool) (l : List Char) :
    List.dropWhile p (List.dropWhile p l) = List.dropWhile p l := by
  induction l with
  | nil => rfl
  | cons c t ih =>
    rw [List.dropWhile_cons]
    by_cases h : p c = true
    · rw [if_pos h]; exact ih
    · rw [if_neg h, List.dropWhile_cons, if_neg h]

/-- The right strip produces a prefix of its input. -/
theorem stripR_leading (l : List Char) : stripR l <+: l := by
  have h : (stripR l).reverse <:+ l.reverse := by
    unfold stripR
    rw [List.reverse_reverse]
    exact List.dropWhile_suffix isPySpace
  exact List.reverse_suffix.mp h

/-- A head that is not whitespace survives `stripL` untouched. -/
theorem stripL_of_head (l : List Char)
    (h : ∀ c, l.head? = some c → isPySpace c = false) : stripL l = l := by
  unfold stripL
  cases l with
  | nil => rfl
  | cons c t => rw [List.dropWhile_cons, if_neg (by simp [h c rfl])]

/-- The head of a left-stripped list is never whitespace. -/
theorem stripL_head (l : List Char) :
    ∀ c, (stripL l).head? = some c → isPySpace c = false := by
  intro c hc
  have := List.head?_dropWhile_not isPySpace l
  unfold stripL at hc
  rw [hc] at this
  exact this

theorem stripR_idem (l : List Char) : stripR (stripR l) = stripR l := by
  unfold stripR
  rw [List.reverse_reverse, dropWhile_dropWhile]

theorem stripL_stripR (l : List Char)
    (h : ∀ c, l.head? = some c → isPySpace c = false) :
    stripL (stripR l) = stripR l := by
  apply stripL_of_head
  intro c hc
  obtain ⟨t, ht⟩ := stripR_leading l
  cases hsr : stripR l with
  | nil => rw [hsr] at hc; cases hc
  | cons d ds =>
    rw [hsr] at hc ht
    cases hc
    exact h c (by rw [← ht]; rfl)

/-- Python `strip` is idempotent. -/
theorem pyStrip_idem (s : String) : pyStrip (pyStrip s) = pyStrip s := by
  apply String.ext
  show stripR (stripL (stripR (stripL s.data))) = stripR (stripL s.data)
  rw [stripL_stripR (stripL s.data) (stripL_head s.data), stripR_idem]

/-! ## Dispatcher lemmas -/

/-- Only the `exit`/`quit` branch of the dispatcher raises the
termination signal; every other verb returns normally. -/
theorem dispatch_not_exit (st1 : ShellState) (cmd : String) (rest : List String)
    (h1 : cmd ≠ "exit") (h2 : cmd ≠ "quit") :
    (dispatch st1 cmd rest).2.2 = false := by
  unfold dispatch
  have hv : ¬ (cmd = "exit" ∨ cmd = "quit") := by
    intro h
    cases h with
    | inl h => exact h1 h
    | inr h => exact h2 h
  repeat' split
  all_goals rfl

/-- Every branch of the verb chain keeps the history it was given. -/
theorem dispatch_history (st1 : ShellState) (cmd : String) (rest : List String) :
    (dispatch st1 cmd rest).1.history = st1.history := by
  unfold dispatch
  by_cases h1 : cmd = "ls"
  · rw [if_pos h1]
  rw [if_neg h1]
  by_cases h2 : cmd = "cd"
  · rw [if_pos h2]
    rfl
  rw [if_neg h2]
  by_cases h3 : cmd = "whoami"
  · rw [if_pos h3]
  rw [if_neg h3]
  by_cases h4 : cmd = "tail"
  · rw [if_pos h4]
  rw [if_neg h4]
  by_cases h5 : cmd = "vfs-info"
  · rw [if_pos h5]
  rw [if_neg h5]
  by_cases h6 : cmd = "history"
  · rw [if_pos h6]
  rw [if_neg h6]
  by_cases h7 : cmd = "cat"
  · rw [if_pos h7]
  rw [if_neg h7]
  by_cases h8 : cmd = "pwd"
  · rw [if_pos h8]
  rw [if_neg h8]
  by_cases h9 : cmd = "help"
  · rw [if_pos h9]
  rw [if_neg h9]
  by_cases h10 : cmd = "exit" ∨ cmd = "quit"
  · rw [if_pos h10]
  rw [if_neg h10]
  by_cases h11 : cmd = "clear" ∨ cmd = "clr"
  · rw [if_pos h11]
  rw [if_neg h11]

theorem exec_not_exit (st : ShellState) (c : String)
    (h1 : verbOf c ≠ "exit") (h2 : verbOf c ≠ "quit") :
    (execute_command st c).2.2 = false := by
  unfold execute_command
  by_cases hc : pyStrip c = ""
  · simp [hc]
  · rw [if_neg hc]
    exact dispatch_not_exit _ _ _ h1 h2

/-- The dispatcher appends every nonempty stripped line to the history
before running its handler; no handler changes the history. -/
theorem exec_history (st : ShellState) (c : String) (hc : pyStrip c ≠ "") :
    (execute_command st c).1.history = st.history ++ [pyStrip c] := by
  unfold execute_command
  rw [if_neg hc]
  exact dispatch_history _ _ _

/-! ## The claims -/

/-- Claim C10: verb handlers silently ignore surplus positional
arguments: `cat f extra`, `tail f n extra`, `cd d extra` and
`ls d extra` behave exactly as the same command with only the expected
leading arguments, with no error reported for the extra tokens. -/
theorem C10_surplus_args_ignored (st : ShellState) (f n d x : String)
    (extras : List String) :
    cmd_cat st (f :: x :: extras) = cmd_cat st [f] ∧
    cmd_tail st (f :: n :: x :: extras) = cmd_tail st [f, n] ∧
    cmd_cd st (d :: x :: extras) = cmd_cd st [d] ∧
    cmd_ls st (d :: x :: extras) = cmd_ls st [d] :=
  ⟨rfl, rfl, rfl, rfl⟩

/-- Claim C3 (the code fails it): with the archive containing
`documents/doc1.txt` — stored, as all entries are, without a leading
slash — the absolute target `/documents` is turned into the test
prefix `/documents/`, which no stored path can ever start with, so
`change_directory` reports failure and leaves the current directory
unchanged instead of entering `documents`. -/
theorem C3_absolute_cd_always_fails :
    change_directory ⟨some [⟨"documents/doc1.txt", []⟩], "/"⟩ "/documents" =
      (false, ⟨some [⟨"documents/doc1.txt", []⟩], "/"⟩,
       [Out.dirNotFound "/documents"]) := by
  decide

/-- Claim C5 (the code fails it): `exit`/`quit` do produce the
termination signal — but in the source it is `sys.exit(0)`, a raised
`SystemExit` that unwinds past the dispatcher (the `true` flag below
models exactly that uncaught propagation), not a result value checked
by the caller.  All other verbs return normally through the
dispatcher. -/
theorem C5_exit_signal (st : ShellState) (c : String) :
    execute_command st "exit" =
      ({ st with history := st.history ++ ["exit"] }, [Out.exitMsg], true) ∧
    execute_command st "quit" =
      ({ st with history := st.history ++ ["quit"] }, [Out.exitMsg], true) ∧
    (verbOf c ≠ "exit" → verbOf c ≠ "quit" →
      (execute_command st c).2.2 = false) :=
  ⟨rfl, rfl, fun h1 h2 => exec_not_exit st c h1 h2⟩

theorem C5_exit_signal_witness :
    (execute_command ⟨⟨none, "/"⟩, [], "u"⟩ "ls").2.2 = false :=
  (C5_exit_signal ⟨⟨none, "/"⟩, [], "u"⟩ "ls").2.2 (by decide) (by decide)

/-- Claim C6 counterexample: the resolved path `somefile` is neither
`/`, nor a proper prefix (followed by `/`) of any entry, nor an
explicit directory marker — the only entry is the plain file
`somefile` itself — yet `change_directory` succeeds and moves into it,
where the claim demands an unchanged directory and `PathNotFound`. -/
theorem C6_counterexample :
    cdTestDir "/" "somefile" = "somefile/" ∧
    (∀ e ∈ [(⟨"somefile", []⟩ : Entry)],
       pyStartswith e.path "somefile/" = false ∧ e.path ≠ "somefile/") ∧
    change_directory ⟨some [⟨"somefile", []⟩], "/"⟩ "somefile" =
      (true, ⟨some [⟨"somefile", []⟩], "somefile"⟩, []) := by
  decide

/-- Claim C6 as amended: for a target other than the literal `/` and
`..` (which always succeed), if no entry starts with the resolved
prefix — which subsumes the explicit-marker case — and, additionally,
no entry is exactly the resolved path (the code also enters plain-file
entries, which the original claim omitted), then `change_directory`
leaves the state unchanged and reports that the directory was not
found. -/
theorem C6_cd_path_not_found (st : VFSState) (entries : List Entry) (newDir : String)
    (ha : st.archive = some entries)
    (h1 : newDir ≠ "/") (h2 : newDir ≠ "..")
    (h3 : ∀ e ∈ entries,
      pyStartswith e.path (cdTestDir st.currentDir newDir) = false ∧
      e.path ≠ pyRstrip '/' (cdTestDir st.currentDir newDir)) :
    change_directory st newDir = (false, st, [Out.dirNotFound newDir]) := by
  have hany : entries.any (fun e =>
      pyStartswith e.path (cdTestDir st.currentDir newDir) ||
      e.path == pyRstrip '/' (cdTestDir st.currentDir newDir)) = false := by
    rw [List.any_eq_false]
    intro e he
    have h := h3 e he
    simp [h.1, h.2]
  simp only [change_directory, ha, hany, if_neg h1, if_neg h2, Bool.false_eq_true,
    if_false]

theorem C6_cd_path_not_found_witness :
    change_directory ⟨some [⟨"documents/doc1.txt", []⟩], "/"⟩ "reports" =
      (false, ⟨some [⟨"documents/doc1.txt", []⟩], "/"⟩,
       [Out.dirNotFound "reports"]) :=
  C6_cd_path_not_found _ _ _ rfl (by decide) (by decide) (by decide)

/-! ## `read_file` lemmas -/

theorem lookup_some_any {entries : List Entry} {p : String} {e : Entry}
    (h : lookupEntry entries p = some e) :
    entries.any (fun e => e.path == p) = true := by
  unfold lookupEntry at h
  have hm := List.mem_of_find?_eq_some h
  have hp := List.find?_some h
  rw [List.any_eq_true]
  exact ⟨e, List.mem_reverse.mp hm, hp⟩

theorem lookup_none_any {entries : List Entry} {p : String}
    (h : lookupEntry entries p = none) :
    entries.any (fun e => e.path == p) = false := by
  unfold lookupEntry at h
  rw [List.any_eq_false]
  intro e he
  exact List.find?_eq_none.mp h e (List.mem_reverse.mpr he)

/-- Claim C4: at the interface of `read_file` — its returned value
together with what it prints — the three outcomes are mutually
distinguishable: a successful read returns the decoded text silently;
a missing path returns `none` silently (`FileNotFound`); a found entry
with undecodable bytes prints the binary-data message and returns
`none` (`NotTextDecodable`).  Both failures also differ from the
successful read of an empty file, which is `(some "", [])`. -/
theorem C4_read_file_results (st : VFSState) (entries : List Entry) (f : String)
    (ha : st.archive = some entries) :
    (∀ e, lookupEntry entries (resolveReadPath st.currentDir f) = some e →
      (∀ t, utf8Decode e.bytes = some t → read_file st f = (some t, [])) ∧
      (utf8Decode e.bytes = none → read_file st f = (none, [Out.binaryFile f]))) ∧
    (lookupEntry entries (resolveReadPath st.currentDir f) = none →
      read_file st f = (none, [])) ∧
    ((none, [Out.binaryFile f]) ≠ ((none : Option String), ([] : List Out))) ∧
    (∀ t : String, (some t, ([] : List Out)) ≠ ((none : Option String), [])) ∧
    (∀ t : String, (some t, ([] : List Out)) ≠
      ((none : Option String), [Out.binaryFile f])) := by
  refine ⟨?_, ?_, by simp, by simp, by simp⟩
  · intro e hl
    have hany := lookup_some_any hl
    constructor
    · intro t ht
      simp only [read_file, ha, hany, if_true, hl, ht]
    · intro ht
      simp only [read_file, ha, hany, if_true, hl, ht]
  · intro hl
    have hany := lookup_none_any hl
    simp only [read_file, ha, hany, Bool.false_eq_true, if_false]

theorem C4_read_file_results_witness :
    read_file ⟨some [⟨"a.txt", [72]⟩, ⟨"bin.dat", [255]⟩], "/"⟩ "bin.dat" =
      (none, [Out.binaryFile "bin.dat"]) ∧
    read_file ⟨some [⟨"a.txt", [72]⟩, ⟨"bin.dat", [255]⟩], "/"⟩ "a.txt" =
      (some "H", []) ∧
    read_file ⟨some [⟨"a.txt", [72]⟩, ⟨"bin.dat", [255]⟩], "/"⟩ "missing.txt" =
      (none, []) :=
  ⟨((C4_read_file_results _ [⟨"a.txt", [72]⟩, ⟨"bin.dat", [255]⟩] _ rfl).1
      ⟨"bin.dat", [255]⟩ (by decide)).2 (by decide),
   ((C4_read_file_results _ [⟨"a.txt", [72]⟩, ⟨"bin.dat", [255]⟩] _ rfl).1
      ⟨"a.txt", [72]⟩ (by decide)).1 "H" (by decide),
   (C4_read_file_results _ [⟨"a.txt", [72]⟩, ⟨"bin.dat", [255]⟩] _ rfl).2.1
      (by decide)⟩

/-- Claim C7: for a readable text file and a positive count `n` (any
argument string parsing to `n`; 10 when the argument is omitted),
`tail` prints, after its header, exactly the last
`min(n, L)` content lines, each with its original 1-based number, the
first of them numbered `L - min(n, L) + 1`. -/
theorem C7_tail_last_lines (st : ShellState) (f s content : String) (n : Int)
    (hread : read_file st.vfs f = (some content, []))
    (hparse : pyInt s = some n) (hn : 0 < n) :
    (cmd_tail st [f, s] =
      Out.tailHeader n.toNat f ::
        (List.enumFrom
            ((pySplitNl content).length - min n.toNat (pySplitNl content).length + 1)
            ((pySplitNl content).drop
              ((pySplitNl content).length - min n.toNat (pySplitNl content).length))).map
          (fun p => Out.numberedLine p.1 p.2)) ∧
    ((pySplitNl content).drop
        ((pySplitNl content).length - min n.toNat (pySplitNl content).length)).length =
      min n.toNat (pySplitNl content).length ∧
    (cmd_tail st [f] =
      Out.tailHeader 10 f ::
        (List.enumFrom
            ((pySplitNl content).length - min 10 (pySplitNl content).length + 1)
            ((pySplitNl content).drop
              ((pySplitNl content).length - min 10 (pySplitNl content).length))).map
          (fun p => Out.numberedLine p.1 p.2)) := by
  have hmin : ∀ m : Nat, (pySplitNl content).length - m =
      (pySplitNl content).length - min m (pySplitNl content).length := by
    intro m
    have := Nat.min_le_right m (pySplitNl content).length
    omega
  refine ⟨?_, ?_, ?_⟩
  · simp only [cmd_tail, hparse, if_neg (not_le.mpr hn), tailRun, hread,
      List.nil_append]
    rw [← hmin n.toNat]
  · rw [List.length_drop]
    have := Nat.min_le_right n.toNat (pySplitNl content).length
    omega
  · simp only [cmd_tail, tailRun, hread, List.nil_append]
    rw [← hmin 10]

theorem C7_tail_last_lines_witness :
    cmd_tail ⟨⟨some [⟨"readme.txt", [65, 10, 66, 10, 67]⟩], "/"⟩, [], "u"⟩
        ["readme.txt", "2"] =
      [Out.tailHeader 2 "readme.txt", Out.numberedLine 2 "B", Out.numberedLine 3 "C"] := by
  have h := (C7_tail_last_lines ⟨⟨some [⟨"readme.txt", [65, 10, 66, 10, 67]⟩], "/"⟩, [], "u"⟩
    "readme.txt" "2" "A\nB\nC" 2 (by decide) (by decide) (by decide)).1
  exact h.trans (by decide)

/-! ## `history` lemmas -/

/-- `cmd_history` on a history of shape `H ++ [c]` ends with line
`H.length + 1 : c`. -/
theorem cmd_history_last (v : VFSState) (u : String) (H : List String) (c : String) :
    (cmd_history ⟨v, H ++ [c], u⟩).getLast? =
      some (Out.historyLine (H.length + 1) c) := by
  simp only [cmd_history]
  rw [if_neg (by simp)]
  rw [List.drop_append_of_le_length
    (by simp only [List.length_append, List.length_cons, List.length_nil]; omega)]
  rw [List.enumFrom_append, List.map_append]
  simp only [List.enumFrom_cons, List.enumFrom_nil, List.map_cons, List.map_nil]
  rw [← List.cons_append, List.getLast?_concat]
  have hidx : (H ++ [c]).length - 20 + 1 + (List.drop ((H ++ [c]).length - 20) H).length =
      H.length + 1 := by
    rw [List.length_drop]
    simp only [List.length_append, List.length_cons, List.length_nil]
    omega
  rw [hidx]

/-- Claim C9: every nonempty line is appended to the history before
its handler runs; in particular `history` displays its own invocation
as the final, highest-numbered entry of the printed window, and a
failing or unknown command is already recorded when its error is
reported. -/
theorem C9_history_self_recording (st : ShellState) (line : String)
    (h : pyStrip line ≠ "") :
    (execute_command st line).1.history = st.history ++ [pyStrip line] ∧
    (verbOf line = "history" →
      (execute_command st line).2.1.getLast? =
        some (Out.historyLine (st.history.length + 1) (pyStrip line))) := by
  refine ⟨exec_history st line h, ?_⟩
  intro hv
  unfold verbOf at hv
  unfold execute_command
  rw [if_neg h]
  rw [hv]
  have hd : ∀ (s : ShellState) (r : List String),
      dispatch s "history" r = (s, cmd_history s, false) := fun s r => rfl
  rw [hd]
  exact cmd_history_last st.vfs st.username st.history (pyStrip line)

theorem C9_history_self_recording_witness :
    (execute_command ⟨⟨none, "/"⟩, ["ls", "pwd"], "u"⟩ " history ").1.history =
      ["ls", "pwd", "history"] ∧
    (execute_command ⟨⟨none, "/"⟩, ["ls", "pwd"], "u"⟩ " history ").2.1.getLast? =
      some (Out.historyLine 3 "history") := by
  have h := C9_history_self_recording ⟨⟨none, "/"⟩, ["ls", "pwd"], "u"⟩ " history "
    (by decide)
  exact ⟨h.1.trans (by decide), (h.2 (by decide)).trans (by decide)⟩

/-! ## Script-runner lemmas -/

theorem verbOf_strip (s : String) : verbOf (pyStrip s) = verbOf s := by
  unfold verbOf
  rw [pyStrip_idem]

/-- Claim C8: a script line whose verb is not `exit`/`quit` — whatever
its outcome, including an unknown verb or a failed filesystem
operation — never stops the run: the line is echoed and dispatched,
and the runner continues with the remaining lines from the updated
state, the final outcome being that of the rest of the script. -/
theorem C8_script_best_effort (st : ShellState) (n : Nat) (line0 : String)
    (rest : List String)
    (h1 : pyStrip line0 ≠ "")
    (h2 : pyStartswith (pyStrip line0) "#" = false)
    (h3 : verbOf line0 ≠ "exit") (h4 : verbOf line0 ≠ "quit") :
    runScriptLines st n (line0 :: rest) =
      ((runScriptLines (execute_command st (pyStrip line0)).1 (n + 1) rest).1,
       Out.scriptEcho n (pyStrip line0) ::
         (execute_command st (pyStrip line0)).2.1 ++
           Out.blankLine ::
             (runScriptLines (execute_command st (pyStrip line0)).1 (n + 1) rest).2.1,
       (runScriptLines (execute_command st (pyStrip line0)).1 (n + 1) rest).2.2) := by
  have hex : (execute_command st (pyStrip line0)).2.2 = false := by
    apply exec_not_exit
    · rw [verbOf_strip]; exact h3
    · rw [verbOf_strip]; exact h4
  simp only [runScriptLines, if_neg h1, h2, Bool.false_eq_true, if_false, hex]

theorem C8_script_best_effort_witness :
    runScriptLines ⟨⟨none, "/"⟩, [], "u"⟩ 1 ["frobnicate", "pwd"] =
      (⟨⟨none, "/"⟩, ["frobnicate", "pwd"], "u"⟩,
       [Out.scriptEcho 1 "frobnicate", Out.unknownCommand "frobnicate", Out.blankLine,
        Out.scriptEcho 2 "pwd", Out.pwdOut "/", Out.blankLine],
       false) := by
  have h := C8_script_best_effort ⟨⟨none, "/"⟩, [], "u"⟩ 1 "frobnicate" ["pwd"]
    (by decide) (by decide) (by decide) (by decide)
  exact h.trans (by decide)

/-! ## `change_directory` invariant machinery -/

theorem str_eq_empty_iff {s : String} : s = "" ↔ s.data = [] :=
  ⟨fun h => by rw [h], fun h => String.ext h⟩

theorem single_prefix_iff {c : Char} {l : List Char} : [c] <+: l ↔ l.head? = some c := by
  cases l with
  | nil => simp
  | cons x xs =>
    constructor
    · intro h
      obtain ⟨t, ht⟩ := h
      cases ht
      rfl
    · intro h
      have hx : x = c := by simpa using h
      subst hx
      exact ⟨xs, rfl⟩

theorem pyStartswith_slash {s : String} :
    pyStartswith s "/" = false ↔ s.data.head? ≠ some '/' := by
  constructor
  · intro h hc
    have ht : pyStartswith s "/" = true :=
      pyStartswith_iff.mpr (single_prefix_iff.mpr hc)
    rw [h] at ht
    cases ht
  · intro h
    cases hb : pyStartswith s "/" with
    | false => rfl
    | true => exact absurd (single_prefix_iff.mp (pyStartswith_iff.mp hb)) h

theorem head?_of_leading {X l : List Char} (h : X <+: l) (hne : X ≠ []) :
    l.head? = X.head? := by
  obtain ⟨t, ht⟩ := h
  subst ht
  cases X with
  | nil => exact absurd rfl hne
  | cons x xs => rfl

/-- The `dirname` head together with a slash-free tail reassemble the
input. -/
theorem keep_decomp (l : List Char) :
    l = keepThroughLastSlash l ++ (l.reverse.takeWhile (· != '/')).reverse := by
  calc l = l.reverse.reverse := (List.reverse_reverse l).symm
    _ = (l.reverse.takeWhile (· != '/') ++ l.reverse.dropWhile (· != '/')).reverse := by
          rw [List.takeWhile_append_dropWhile]
    _ = keepThroughLastSlash l ++ (l.reverse.takeWhile (· != '/')).reverse := by
          rw [List.reverse_append]
          rfl

theorem keep_getLast {l : List Char} (h : keepThroughLastSlash l ≠ []) :
    (keepThroughLastSlash l).getLast? = some '/' := by
  unfold keepThroughLastSlash at h ⊢
  rw [List.getLast?_reverse]
  cases hd : (l.reverse.dropWhile (· != '/')).head? with
  | none =>
    exact absurd (by rw [List.head?_eq_none_iff.mp hd]; rfl) h
  | some d =>
    have hw := List.head?_dropWhile_not (· != '/') l.reverse
    rw [hd] at hw
    have : d = '/' := by simpa using hw
    rw [this]

theorem all_slash_false {l : List Char} {c0 : Char} (h0 : l.head? = some c0)
    (hc : c0 ≠ '/') : l.all (· == '/') = false := by
  cases l with
  | nil => cases h0
  | cons x xs =>
    have hx : x = c0 := by simpa using h0
    subst hx
    simp [List.all_cons, beq_eq_false_iff_ne.mpr hc]

/-- When the input ends in the stripped character the stripped run is
nonempty. -/
theorem rstrip_decomp_pos {c : Char} {l : List Char} (h : l.getLast? = some c) :
    ∃ k, l = rstripCh c l ++ List.replicate (k + 1) c := by
  obtain ⟨k, hk⟩ := rstripCh_decomp c l
  cases k with
  | zero =>
    rw [List.replicate_zero, List.append_nil] at hk
    exact absurd (by rw [← hk]; exact h) (rstripCh_getLast c l)
  | succ k => exact ⟨k, hk⟩

/-- Build the non-root branch of `cdInv` from a witnessing entry. -/
theorem cdInv_build {entries : List Entry} {P : List Char} (hPne : P ≠ [])
    (hPhead : P.head? ≠ some '/') (hPlast : P.getLast? ≠ some '/')
    {e : Entry} (he : e ∈ entries)
    (hwit : (P ++ ['/']) <+: e.path.data ∨ e.path.data = P) :
    cdInv entries ⟨P⟩ := by
  right
  refine ⟨fun h => hPne (str_eq_empty_iff.mp h), pyStartswith_slash.mpr hPhead,
    endsWithCh_eq_false.mpr hPlast, e, he, ?_⟩
  cases hwit with
  | inl h => exact Or.inl (pyStartswith_iff.mpr h)
  | inr h => exact Or.inr (String.ext h)

/-- The resolved `cd` test prefix always ends in `/`. -/
theorem cdTestDir_last (cur d : String) :
    (cdTestDir cur d).data.getLast? = some '/' := by
  unfold cdTestDir
  split
  · exact List.getLast?_concat _
  · exact List.getLast?_concat _

/-- One `change_directory` call preserves the reachability invariant,
for archives whose entry paths do not begin with `/`. -/
theorem cd_step (entries : List Entry)
    (hun : ∀ e ∈ entries, pyStartswith e.path "/" = false)
    (cur d : String) (hI : cdInv entries cur) :
    cdInv entries (change_directory ⟨some entries, cur⟩ d).2.1.currentDir := by
  simp only [change_directory]
  by_cases h1 : d = "/"
  · rw [if_pos h1]
    exact Or.inl rfl
  rw [if_neg h1]
  by_cases h2 : d = ".."
  · rw [if_pos h2]
    by_cases hc : cur = "/"
    · rw [if_neg (by simp [hc])]
      exact Or.inl hc
    rw [if_pos (by simpa using hc)]
    rcases hI with hroot | ⟨hne, hlead, htrail, e, he, hwit⟩
    · exact absurd hroot hc
    have hrs : pyRstrip '/' cur = cur :=
      String.ext (rstripCh_of_getLast_ne (endsWithCh_eq_false.mp htrail))
    rw [hrs]
    by_cases hh : keepThroughLastSlash cur.data = []
    · have hd0 : pyDirname cur = "" := by
        unfold pyDirname
        rw [hh]
        rfl
      rw [hd0, if_pos rfl]
      exact Or.inl rfl
    · have hlast := keep_getLast hh
      have hdecomp := keep_decomp cur.data
      have hcne : cur.data ≠ [] := fun h => hne (str_eq_empty_iff.mpr h)
      obtain ⟨c0, hc0⟩ : ∃ c0, cur.data.head? = some c0 := by
        cases hcd : cur.data with
        | nil => exact absurd hcd hcne
        | cons a t => exact ⟨a, rfl⟩
      have hc0ne : c0 ≠ '/' := fun h =>
        (pyStartswith_slash.mp hlead) (by rw [hc0, h])
      have hheadhead : (keepThroughLastSlash cur.data).head? = some c0 := by
        rw [← hc0]
        exact (head?_of_leading ⟨_, hdecomp.symm⟩ hh).symm
      have hall : (keepThroughLastSlash cur.data).all (· == '/') = false :=
        all_slash_false hheadhead hc0ne
      have hdn : pyDirname cur = ⟨rstripCh '/' (keepThroughLastSlash cur.data)⟩ := by
        simp only [pyDirname, hall, Bool.false_eq_true, if_false]
      rw [hdn]
      by_cases hD : rstripCh '/' (keepThroughLastSlash cur.data) = []
      · rw [hD]
        exact Or.inl rfl
      have hDs : (⟨rstripCh '/' (keepThroughLastSlash cur.data)⟩ : String) ≠ "" :=
        fun hx => hD (congrArg String.data hx)
      rw [if_neg hDs]
      obtain ⟨k, hk⟩ := rstrip_decomp_pos hlast
      have hPcur : (rstripCh '/' (keepThroughLastSlash cur.data) ++ ['/']) <+: cur.data := by
        refine ⟨List.replicate k '/' ++ (cur.data.reverse.takeWhile (· != '/')).reverse, ?_⟩
        calc (rstripCh '/' (keepThroughLastSlash cur.data) ++ ['/']) ++
              (List.replicate k '/' ++ (cur.data.reverse.takeWhile (· != '/')).reverse)
            = (rstripCh '/' (keepThroughLastSlash cur.data) ++ List.replicate (k + 1) '/') ++
              (cur.data.reverse.takeWhile (· != '/')).reverse := by
              rw [List.replicate_succ]
              simp [List.append_assoc]
          _ = keepThroughLastSlash cur.data ++
              (cur.data.reverse.takeWhile (· != '/')).reverse := by rw [← hk]
          _ = cur.data := hdecomp.symm
      have hPhead : (rstripCh '/' (keepThroughLastSlash cur.data)).head? ≠ some '/' := by
        have hph := head?_of_leading ⟨_, hk.symm⟩ hD
        rw [hheadhead] at hph
        intro hx
        rw [hx] at hph
        exact hc0ne (by simpa using hph)
      apply cdInv_build hD hPhead (rstripCh_getLast _ _) he
      cases hwit with
      | inl hw =>
        have hce : (cur.data ++ ['/']) <+: e.path.data := pyStartswith_iff.mp hw
        exact Or.inl (hPcur.trans ((cur.data.prefix_append ['/']).trans hce))
      | inr hw =>
        have hde : e.path.data = cur.data := congrArg String.data hw
        rw [hde]
        exact Or.inl hPcur
  rw [if_neg h2]
  by_cases h3 : (entries.any fun e =>
      pyStartswith e.path (cdTestDir cur d) ||
        e.path == pyRstrip '/' (cdTestDir cur d)) = true
  · rw [if_pos h3]
    obtain ⟨e, he, hcond⟩ := List.any_eq_true.mp h3
    by_cases hD : rstripCh '/' (cdTestDir cur d).data = []
    · have hD2 : pyRstrip '/' (cdTestDir cur d) = "" := String.ext hD
      rw [hD2, if_pos rfl]
      exact Or.inl rfl
    have hDs : pyRstrip '/' (cdTestDir cur d) ≠ "" :=
      fun hx => hD (congrArg String.data hx)
    rw [if_neg hDs]
    obtain ⟨k, hk⟩ := rstrip_decomp_pos (cdTestDir_last cur d)
    have hPpre : rstripCh '/' (cdTestDir cur d).data <+: (cdTestDir cur d).data :=
      ⟨_, hk.symm⟩
    have hPT : (rstripCh '/' (cdTestDir cur d).data ++ ['/']) <+:
        (cdTestDir cur d).data := by
      refine ⟨List.replicate k '/', ?_⟩
      calc (rstripCh '/' (cdTestDir cur d).data ++ ['/']) ++ List.replicate k '/'
          = rstripCh '/' (cdTestDir cur d).data ++ List.replicate (k + 1) '/' := by
            rw [List.replicate_succ]
            simp [List.append_assoc]
        _ = (cdTestDir cur d).data := hk.symm
    have hcond2 : pyStartswith e.path (cdTestDir cur d) = true ∨
        e.path = pyRstrip '/' (cdTestDir cur d) := by simpa using hcond
    rcases hcond2 with hpre | heq
    · have hTe : (cdTestDir cur d).data <+: e.path.data := pyStartswith_iff.mp hpre
      have hPh : (rstripCh '/' (cdTestDir cur d).data).head? ≠ some '/' := by
        have hph := head?_of_leading (hPpre.trans hTe) hD
        intro hx
        exact (pyStartswith_slash.mp (hun e he)) (by rw [hph, hx])
      exact cdInv_build hD hPh (rstripCh_getLast _ _) he (Or.inl (hPT.trans hTe))
    · have hpe : e.path = pyRstrip '/' (cdTestDir cur d) := heq
      have hPh : (rstripCh '/' (cdTestDir cur d).data).head? ≠ some '/' := by
        intro hx
        apply pyStartswith_slash.mp (hun e he)
        rw [hpe]
        exact hx
      exact cdInv_build hD hPh (rstripCh_getLast _ _) he
        (Or.inr (congrArg String.data hpe))
  · rw [if_neg h3]
    exact hI

/-- `change_directory` never touches the loaded archive. -/
theorem cd_archive (st : VFSState) (d : String) :
    (change_directory st d).2.1.archive = st.archive := by
  obtain ⟨ar, cur⟩ := st
  cases ar with
  | none => rfl
  | some entries =>
    simp only [change_directory]
    by_cases h1 : d = "/"
    · rw [if_pos h1]
    rw [if_neg h1]
    by_cases h2 : d = ".."
    · rw [if_pos h2]
    rw [if_neg h2]
    by_cases h3 : (entries.any fun e =>
        pyStartswith e.path (cdTestDir cur d) ||
          e.path == pyRstrip '/' (cdTestDir cur d)) = true
    · rw [if_pos h3]
    · rw [if_neg h3]

theorem cd_foldl_inv (entries : List Entry)
    (hun : ∀ e ∈ entries, pyStartswith e.path "/" = false) :
    ∀ (seq : List String) (st : VFSState), st.archive = some entries →
      cdInv entries st.currentDir →
      cdInv entries
        ((seq.foldl (fun st d => (change_directory st d).2.1) st).currentDir) := by
  intro seq
  induction seq with
  | nil =>
    intro st _ h
    exact h
  | cons d rest ih =>
    intro st ha h
    rw [List.foldl_cons]
    apply ih
    · rw [cd_archive]
      exact ha
    · obtain ⟨ar, cur⟩ := st
      have ha2 : ar = some entries := ha
      subst ha2
      exact cd_step entries hun cur d h

theorem splitChWith_ne_nil (c : Char) (l : List Char) : splitChWith c l ≠ [] := by
  cases l with
  | nil => simp [splitChWith]
  | cons x xs =>
    simp only [splitChWith]
    by_cases h : (x == c) = true
    · simp [h]
    · simp [h]

/-- Splitting at a separator distributes over an append at the
separator. -/
theorem splitChWith_append (c : Char) (a b : List Char) :
    splitChWith c (a ++ c :: b) = splitChWith c a ++ splitChWith c b := by
  induction a with
  | nil => simp [splitChWith]
  | cons x xs ih =>
    rw [List.cons_append]
    by_cases h : (x == c) = true
    · simp only [splitChWith, h, if_true, List.append_eq, ih]
      rw [List.cons_append]
    · simp only [splitChWith, h, Bool.false_eq_true, if_false, List.append_eq, ih]
      cases hs : splitChWith c xs with
      | nil => exact absurd hs (splitChWith_ne_nil c xs)
      | cons s ss => simp [hs, List.cons_append]

/-- A current directory satisfying the invariant inherits segment
well-formedness from the archive. -/
theorem cdInv_wfSegs (entries : List Entry) (cur : String)
    (hI : cdInv entries cur) (hwf : ∀ e ∈ entries, wfSegs e.path) :
    cur = "/" ∨ wfSegs cur := by
  rcases hI with h | ⟨hne, hlead, htrail, e, he, hwit⟩
  · exact Or.inl h
  right
  cases hwit with
  | inr heq =>
    rw [← heq]
    exact hwf e he
  | inl hpre =>
    have hw := hwf e he
    obtain ⟨t, ht⟩ := pyStartswith_iff.mp hpre
    have hdata : e.path.data = cur.data ++ '/' :: t := by
      rw [← ht]
      show (cur.data ++ ['/']) ++ t = cur.data ++ '/' :: t
      simp
    intro seg hseg
    apply hw
    rw [hdata, splitChWith_append]
    exact List.mem_append_left _ hseg

/-- Claim C2 counterexample: one successful relative `cd` from the
initial state yields the current directory `somefile` — it does not
begin with `/`, and no entry's path starts with `somefile + "/"` or
equals `somefile` with a trailing marker either (the entered entry is
a plain file). -/
theorem C2_counterexample :
    (cdReach [⟨"docs/a.txt", []⟩, ⟨"somefile", []⟩] ["somefile"]).currentDir =
      "somefile" ∧
    pyStartswith "somefile" "/" = false ∧
    (∀ e ∈ [(⟨"docs/a.txt", []⟩ : Entry), ⟨"somefile", []⟩],
      pyStartswith e.path ("somefile" ++ "/") = false ∧
      e.path ≠ "somefile" ++ "/") := by
  decide

/-- Claim C2 as amended: over an archive whose entry paths do not
begin with `/`, every sequence of `change_directory` calls from the
initial state leaves the current directory either `/` or a nonempty
root-relative path — no leading slash (the code stores it without
one), no trailing slash — witnessed by an entry that extends it
(`P + "/"` a prefix) or is exactly the path `P` itself (a plain file);
and when no entry path has empty or `.` segments, neither has the
current directory. -/
theorem C2_cd_invariant (entries : List Entry)
    (hun : ∀ e ∈ entries, pyStartswith e.path "/" = false) (seq : List String) :
    cdInv entries (cdReach entries seq).currentDir ∧
    ((∀ e ∈ entries, wfSegs e.path) →
      (cdReach entries seq).currentDir = "/" ∨
        wfSegs (cdReach entries seq).currentDir) := by
  have h : cdInv entries (cdReach entries seq).currentDir := by
    unfold cdReach
    exact cd_foldl_inv entries hun seq ⟨some entries, "/"⟩ rfl (Or.inl rfl)
  exact ⟨h, fun hwf => cdInv_wfSegs entries _ h hwf⟩

theorem C2_cd_invariant_witness :
    cdInv [⟨"documents/doc1.txt", []⟩]
      (cdReach [⟨"documents/doc1.txt", []⟩]
        ["documents", "reports", "..", "documents"]).currentDir ∧
    ((∀ e ∈ [(⟨"documents/doc1.txt", []⟩ : Entry)], wfSegs e.path) →
      (cdReach [⟨"documents/doc1.txt", []⟩]
        ["documents", "reports", "..", "documents"]).currentDir = "/" ∨
        wfSegs (cdReach [⟨"documents/doc1.txt", []⟩]
          ["documents", "reports", "..", "documents"]).currentDir) :=
  C2_cd_invariant [⟨"documents/doc1.txt", []⟩] (by decide)
    ["documents", "reports", "..", "documents"]

/-! ## Ordering lemmas for the sort -/

theorem lexLeB_total (a b : List Char) : lexLeB a b = true ∨ lexLeB b a = true := by
  induction a generalizing b with
  | nil => exact Or.inl rfl
  | cons x xs ih =>
    cases b with
    | nil => exact Or.inr rfl
    | cons y ys =>
      simp only [lexLeB]
      rcases Nat.lt_trichotomy x.toNat y.toNat with h | h | h
      · rw [if_pos h]
        exact Or.inl rfl
      · simp only [if_neg (show ¬x.toNat < y.toNat by omega),
          if_neg (show ¬y.toNat < x.toNat by omega)]
        exact ih ys
      · simp only [if_pos h, if_neg (show ¬x.toNat < y.toNat by omega)]
        exact Or.inr trivial

theorem lexLeB_trans : ∀ (a b c : List Char),
    lexLeB a b = true → lexLeB b c = true → lexLeB a c = true
  | [], _, _, _, _ => rfl
  | x :: xs, [], _, h, _ => absurd h (by simp [lexLeB])
  | _ :: _, _ :: _, [], _, h => absurd h (by simp [lexLeB])
  | x :: xs, y :: ys, z :: zs, h1, h2 => by
    simp only [lexLeB] at h1 h2 ⊢
    rcases Nat.lt_trichotomy x.toNat y.toNat with hxy | hxy | hxy
    · rcases Nat.lt_trichotomy y.toNat z.toNat with hyz | hyz | hyz
      · rw [if_pos (by omega)]
      · rw [if_pos (by omega)]
      · rw [if_neg (by omega), if_pos hyz] at h2
        cases h2
    · rcases Nat.lt_trichotomy y.toNat z.toNat with hyz | hyz | hyz
      · rw [if_pos (by omega)]
      · rw [if_neg (by omega), if_neg (by omega)] at h1
        rw [if_neg (by omega), if_neg (by omega)] at h2
        rw [if_neg (by omega), if_neg (by omega)]
        exact lexLeB_trans xs ys zs h1 h2
      · rw [if_neg (by omega), if_pos hyz] at h2
        cases h2
    · rw [if_neg (by omega), if_pos hxy] at h1
      cases h1

/-! ## `list_files` collector lemmas -/

theorem contains_iff {l : List String} {x : String} : l.contains x = true ↔ x ∈ l := by
  unfold List.contains
  exact List.elem_iff

/-- The file component of the collector: the remainders appended in
namelist order. -/
theorem lsCollect_snd (target : String) (es : List Entry) :
    ∀ ds fs : List String,
      (lsCollect target es (ds, fs)).2 =
        fs ++ es.filterMap (fun e => lsFileOf target e.path) := by
  induction es with
  | nil =>
    intro ds fs
    simp [lsCollect]
  | cons e rest ih =>
    intro ds fs
    simp only [lsCollect]
    cases hrel : lsRel target e.path with
    | none => simp [List.filterMap_cons, lsFileOf, hrel, ih]
    | some rel =>
      by_cases hc : '/' ∈ rel.data
      · simp [List.filterMap_cons, lsFileOf, hrel, hc, ih]
      · simp [List.filterMap_cons, lsFileOf, hrel, hc, ih, List.append_assoc]

/-- Step lemmas for the collector, one per loop branch. -/
theorem lsCollect_cons_none {target : String} {e : Entry} (rest : List Entry)
    (ds fs : List String) (hrel : lsRel target e.path = none) :
    lsCollect target (e :: rest) (ds, fs) = lsCollect target rest (ds, fs) := by
  simp [lsCollect, hrel]

theorem lsCollect_cons_file {target : String} {e : Entry} {rel : String}
    (rest : List Entry) (ds fs : List String)
    (hrel : lsRel target e.path = some rel) (hc : '/' ∉ rel.data) :
    lsCollect target (e :: rest) (ds, fs) =
      lsCollect target rest (ds, fs ++ [rel]) := by
  simp [lsCollect, hrel, hc]

theorem lsCollect_cons_dir_mem {target : String} {e : Entry} {rel : String}
    (rest : List Entry) (ds fs : List String)
    (hrel : lsRel target e.path = some rel) (hc : '/' ∈ rel.data)
    (hmem : (⟨rel.data.takeWhile (· != '/')⟩ : String) ∈ ds) :
    lsCollect target (e :: rest) (ds, fs) = lsCollect target rest (ds, fs) := by
  simp [lsCollect, hrel, hc, hmem]

theorem lsCollect_cons_dir_new {target : String} {e : Entry} {rel : String}
    (rest : List Entry) (ds fs : List String)
    (hrel : lsRel target e.path = some rel) (hc : '/' ∈ rel.data)
    (hmem : (⟨rel.data.takeWhile (· != '/')⟩ : String) ∉ ds) :
    lsCollect target (e :: rest) (ds, fs) =
      lsCollect target rest (ds ++ [⟨rel.data.takeWhile (· != '/')⟩], fs) := by
  simp [lsCollect, hrel, hc, hmem]

/-- Head computations for the two classifiers. -/
theorem filterMap_dir_cons {target : String} {e : Entry} {rel : String}
    (rest : List Entry) (hrel : lsRel target e.path = some rel)
    (hc : '/' ∈ rel.data) :
    (e :: rest).filterMap (fun e => lsDirOf target e.path) =
      ⟨rel.data.takeWhile (· != '/')⟩ ::
        rest.filterMap (fun e => lsDirOf target e.path) := by
  simp [List.filterMap_cons, lsDirOf, hrel, hc]

theorem filterMap_dir_skip_none {target : String} {e : Entry} (rest : List Entry)
    (hrel : lsRel target e.path = none) :
    (e :: rest).filterMap (fun e => lsDirOf target e.path) =
      rest.filterMap (fun e => lsDirOf target e.path) := by
  simp [List.filterMap_cons, lsDirOf, hrel]

theorem filterMap_dir_skip_file {target : String} {e : Entry} {rel : String}
    (rest : List Entry) (hrel : lsRel target e.path = some rel)
    (hc : '/' ∉ rel.data) :
    (e :: rest).filterMap (fun e => lsDirOf target e.path) =
      rest.filterMap (fun e => lsDirOf target e.path) := by
  simp [List.filterMap_cons, lsDirOf, hrel, hc]

/-- The directory component of the collector: a duplicate-free set of
the inferred first segments, extending the accumulator. -/
theorem lsCollect_fst (target : String) (es : List Entry) :
    ∀ ds fs : List String, ds.Nodup →
      (lsCollect target es (ds, fs)).1.Nodup ∧
      (∀ x, x ∈ (lsCollect target es (ds, fs)).1 ↔
        x ∈ ds ∨ x ∈ es.filterMap (fun e => lsDirOf target e.path)) := by
  induction es with
  | nil =>
    intro ds fs hnd
    exact ⟨hnd, fun x => by simp [lsCollect]⟩
  | cons e rest ih =>
    intro ds fs hnd
    cases hrel : lsRel target e.path with
    | none =>
      rw [lsCollect_cons_none rest ds fs hrel, filterMap_dir_skip_none rest hrel]
      exact ih ds fs hnd
    | some rel =>
      by_cases hc : '/' ∈ rel.data
      · by_cases hmem : (⟨rel.data.takeWhile (· != '/')⟩ : String) ∈ ds
        · rw [lsCollect_cons_dir_mem rest ds fs hrel hc hmem,
            filterMap_dir_cons rest hrel hc]
          have hih := ih ds fs hnd
          refine ⟨hih.1, fun x => ?_⟩
          rw [hih.2 x, List.mem_cons]
          constructor
          · rintro (h | h)
            · exact Or.inl h
            · exact Or.inr (Or.inr h)
          · rintro (h | h | h)
            · exact Or.inl h
            · exact Or.inl (by rw [h]; exact hmem)
            · exact Or.inr h
        · rw [lsCollect_cons_dir_new rest ds fs hrel hc hmem,
            filterMap_dir_cons rest hrel hc]
          have hnd2 : (ds ++ [(⟨rel.data.takeWhile (· != '/')⟩ : String)]).Nodup := by
            refine List.Nodup.append hnd (List.nodup_singleton _) ?_
            intro a ha hb
            rw [List.mem_singleton] at hb
            subst hb
            exact hmem ha
          have hih := ih (ds ++ [⟨rel.data.takeWhile (· != '/')⟩]) fs hnd2
          refine ⟨hih.1, fun x => ?_⟩
          rw [hih.2 x, List.mem_append, List.mem_singleton, List.mem_cons]
          tauto
      · rw [lsCollect_cons_file rest ds fs hrel hc,
          filterMap_dir_skip_file rest hrel hc]
        exact ih ds (fs ++ [rel]) hnd

/-- Claim C1 counterexample.  At the root, `list_files` matches stored
paths against the prefix `/`, which no unrooted entry path can start
with, so it returns the empty listing where the claim's union contains
the inferred directories; and for a target whose contents mix letter
case, the code's plain `sorted()` is code-point (case-sensitive)
order, not the case-insensitive-stable order the claim states. -/
theorem C1_counterexample :
    list_files ⟨some [⟨"documents/doc1.txt", []⟩, ⟨"d/B.txt", []⟩, ⟨"d/a.txt", []⟩], "/"⟩
        none = some [] ∧
    claimedListing [⟨"documents/doc1.txt", []⟩, ⟨"d/B.txt", []⟩, ⟨"d/a.txt", []⟩] "/" =
      ["d", "documents"] ∧
    list_files ⟨some [⟨"documents/doc1.txt", []⟩, ⟨"d/B.txt", []⟩, ⟨"d/a.txt", []⟩], "/"⟩
        (some "d") = some ["B.txt", "a.txt"] ∧
    claimedListing [⟨"documents/doc1.txt", []⟩, ⟨"d/B.txt", []⟩, ⟨"d/a.txt", []⟩] "d" =
      ["a.txt", "B.txt"] := by
  decide

/-- Claim C1 as amended: for every loaded filesystem and target, the
listing exists and is exactly the direct file names (with namelist
multiplicity) together with the inferred first-segment subdirectory
names — each subdirectory name exactly once, however many entries
share the prefix — sorted in code-point (case-sensitive) lexicographic
order, all relative to the computed target prefix.  (At the root the
prefix is `/`, which matches no stored unrooted path, so the
characterization makes that listing empty.) -/
theorem C1_list_files_characterization (entries : List Entry) (cur : String)
    (dopt : Option String) :
    ∃ l, list_files ⟨some entries, cur⟩ dopt = some l ∧
      List.Sorted pyLe l ∧
      (∀ x, x ∈ l ↔
        x ∈ entries.filterMap (fun e => lsFileOf (lsTarget cur dopt) e.path) ∨
        x ∈ entries.filterMap (fun e => lsDirOf (lsTarget cur dopt) e.path)) ∧
      (∀ x, l.count x =
        (entries.filterMap (fun e => lsFileOf (lsTarget cur dopt) e.path)).count x +
          (if x ∈ entries.filterMap (fun e => lsDirOf (lsTarget cur dopt) e.path)
           then 1 else 0)) := by
  haveI : IsTotal String pyLe := ⟨fun a b => lexLeB_total a.data b.data⟩
  haveI : IsTrans String pyLe := ⟨fun a b c => lexLeB_trans a.data b.data c.data⟩
  have hsnd := lsCollect_snd (lsTarget cur dopt) entries [] []
  rw [List.nil_append] at hsnd
  have hfst := lsCollect_fst (lsTarget cur dopt) entries [] [] List.nodup_nil
  have hperm : List.Perm
      (pySorted ((lsCollect (lsTarget cur dopt) entries ([], [])).1 ++
        (lsCollect (lsTarget cur dopt) entries ([], [])).2))
      ((lsCollect (lsTarget cur dopt) entries ([], [])).1 ++
        (lsCollect (lsTarget cur dopt) entries ([], [])).2) :=
    List.perm_insertionSort pyLe _
  refine ⟨pySorted ((lsCollect (lsTarget cur dopt) entries ([], [])).1 ++
      (lsCollect (lsTarget cur dopt) entries ([], [])).2), rfl,
    List.sorted_insertionSort pyLe _, ?_, ?_⟩
  · intro x
    rw [hperm.mem_iff, List.mem_append, hfst.2 x, hsnd]
    simp only [List.not_mem_nil, false_or]
    exact Or.comm
  · intro x
    rw [hperm.count_eq x, List.count_append, hsnd]
    by_cases hx : x ∈ entries.filterMap (fun e => lsDirOf (lsTarget cur dopt) e.path)
    · rw [if_pos hx,
        List.count_eq_one_of_mem hfst.1 ((hfst.2 x).mpr (Or.inr hx))]
      omega
    · rw [if_neg hx,
        List.count_eq_zero.mpr (fun h => by
          rcases (hfst.2 x).mp h with h0 | h1
          · exact absurd h0 (List.not_mem_nil x)
          · exact hx h1)]
      omega

end Emulator
